import Mathlib

/-!
Verification of the typed-react-router route core.

The program under study is `src/hooks/paths.tsx` of the
`typed-react-router` repository: a fixed registry of path templates
(`PATHS`), a parameter-bag validator (`isParams`) and a URL builder
(`buildUrl`).  JavaScript strings are embedded as `List Char`; a
JavaScript value that may be handed to `isParams` is embedded as the
inductive type `JSValue`; a parameter bag (a plain string-keyed object
with string values) is embedded as an association list whose order
models the object's key insertion order, which is the order
`Object.keys` iterates for non-index keys.

`String.prototype.replace` with a string pattern, as used by
`buildUrl`, replaces the first occurrence only and interprets the
dollar escape sequences of the replacement string; both behaviours are
embedded faithfully (`findOcc`, `expandRepl`, `replaceFirst`).

The route matcher itself lives in `react-router-dom`, outside this
repository; where a claim needs it, it is modelled from the spec
(section 4.4), as is the construction-time template parser of spec
section 4.1, which has no counterpart in the repository code.
-/

/-- JavaScript strings as lists of characters. -/
abbrev Str := List Char

/-- Character list of a Lean string literal, for readable constants. -/
def chars (s : String) : Str := s.data

/-- A JavaScript value, as far as `isParams` can observe it. -/
inductive JSValue where
  | undef
  | jsNull
  | str (s : Str)
  | num (n : Int)
  | boolean (b : Bool)
  | obj (fields : List (Str × JSValue))
  | arr (elems : List JSValue)
  | func

/-- The JavaScript test `x instanceof Object`: true exactly for
objects, arrays and functions; false for `null`, `undefined` and
primitives. -/
def instanceofObject : JSValue → Bool
  | JSValue.obj _ => true
  | JSValue.arr _ => true
  | JSValue.func => true
  | _ => false

/-- `Object.keys`: own enumerable keys.  For a plain object these are
the field names in insertion order; for an array the decimal index
strings; for a function, `null`-likes and primitives there are none. -/
def jsKeys : JSValue → List Str
  | JSValue.obj fields => fields.map Prod.fst
  | JSValue.arr elems => (List.range elems.length).map (fun i => Nat.toDigits 10 i)
  | _ => []

/-- JavaScript `String.prototype.split` with a single-character
separator: `splitChar sep s` cuts `s` at every occurrence of `sep`,
keeping empty pieces, so `"/".split('/')` gives two empty pieces. -/
def splitChar (sep : Char) : Str → List Str
  | [] => [[]]
  | c :: rest =>
    if c = sep then [] :: splitChar sep rest
    else ((c :: (splitChar sep rest).headI) :: (splitChar sep rest).tail)

/-- The parameter names of a template, read off as in `isParams`:
split on `'/'`, keep the segments starting with `':'`, drop the
marker.  (`path.split('/').filter(s => s.startsWith(':')).map(s =>
s.substr(1))`.) -/
def requiredParams (path : Str) : List Str :=
  (((splitChar '/' path).filter (fun s => [':'].isPrefixOf s)).map (fun s => s.drop 1))

/-- The registered templates, in registration order (`PATHS` in
`src/hooks/paths.tsx` and the `useTypedSwitch` call of `App.tsx`). -/
def PATHS : List Str :=
  [chars "/", chars "/signup", chars "/login", chars "/post/:id",
   chars "/calendar/:year/:month"]

/-- `isParams` from `src/hooks/paths.tsx`: reject anything that is not
an `Object`, then check that every required parameter name of the
template is among the candidate's keys. -/
def isParams (path : Str) (params : JSValue) : Bool :=
  if !(instanceofObject params) then false
  else (requiredParams path).all (fun x => (jsKeys params).contains x)

/-- Index of the first occurrence of `pat` in a string, as
`String.prototype.indexOf` finds it (`none` when absent). -/
def findOcc (pat : Str) : Str → Option Nat
  | [] => if pat = [] then some 0 else none
  | c :: rest =>
    if pat.isPrefixOf (c :: rest) then some 0
    else (findOcc pat rest).map (· + 1)

/-- Dollar escapes of a `String.prototype.replace` replacement string
with a string pattern: `$$` is a literal dollar, `$&` the matched
text, a dollar followed by a backquote the text before the match, `$'`
the text after it; anything else is literal. -/
def expandRepl (matched before after : Str) : Str → Str
  | [] => []
  | c :: rest =>
    if c = '$' then
      match rest with
      | [] => ['$']
      | d :: rest' =>
        if d = '$' then '$' :: expandRepl matched before after rest'
        else if d = '&' then matched ++ expandRepl matched before after rest'
        else if d = Char.ofNat 96 then before ++ expandRepl matched before after rest'
        else if d = Char.ofNat 39 then after ++ expandRepl matched before after rest'
        else '$' :: d :: expandRepl matched before after rest'
    else c :: expandRepl matched before after rest

/-- JavaScript `s.replace(pat, repl)` with string arguments: replace
the first occurrence of `pat`, expanding dollar escapes in `repl`;
return `s` unchanged when `pat` does not occur. -/
def replaceFirst (s pat repl : Str) : Str :=
  match findOcc pat s with
  | none => s
  | some i =>
      s.take i ++ expandRepl pat (s.take i) (s.drop (i + pat.length)) repl
        ++ s.drop (i + pat.length)

/-- Whether `pat` occurs as a contiguous substring of `s`. -/
def occursIn (pat s : Str) : Bool := (findOcc pat s).isSome

/-- One substitution step of `buildUrl`: `ret.replace(':' + key, value)`. -/
def buildStep (ret : Str) (kv : Str × Str) : Str :=
  replaceFirst ret (':' :: kv.1) kv.2

/-- `buildUrl` from `src/hooks/paths.tsx`: starting from the template,
for each key of the bag in iteration order, replace `':' + key` by the
key's value using `String.prototype.replace`. -/
def buildUrl (path : Str) (params : List (Str × Str)) : Str :=
  params.foldl buildStep path

/-- Modelled from the spec: one segment comparison of the route
matcher of section 4.4 — the matcher itself is `react-router-dom`
code, not part of this repository.  A literal segment matches only an
identical segment (case-sensitive); a parameter segment matches any
single non-empty segment. -/
def segMatches (ts ps : Str) : Bool :=
  if [':'].isPrefixOf ts then !ps.isEmpty else ts == ps

/-- Modelled from the spec: the route matcher of section 4.4, absent
from the repository (it is `react-router-dom`'s `useRouteMatch` with
`exact`, `strict` and `sensitive` set).  Segment counts must be equal
(exact and strict on the trailing slash, since a trailing slash yields
an extra empty segment), each segment must match, and every parameter
segment binds its name to the text of the matched segment. -/
def matchTemplate (template path : Str) : Option (List (Str × Str)) :=
  let ts := splitChar '/' template
  let ps := splitChar '/' path
  if (ts.length == ps.length) && ((ts.zip ps).all (fun sp => segMatches sp.1 sp.2)) then
    some (((ts.zip ps).filter (fun sp => [':'].isPrefixOf sp.1)).map
      (fun sp => (sp.1.drop 1, sp.2)))
  else none

/-- Modelled from the spec: matching against the ordered registry
(section 4.4) — entries are tried in registration order and the first
template that matches wins; the matched template stands in for the
opaque handler identifier. -/
def matchRegistry (registry : List Str) (path : Str) : Option (Str × List (Str × Str)) :=
  match registry with
  | [] => none
  | t :: rest =>
    match matchTemplate t path with
    | some bag => some (t, bag)
    | none => matchRegistry rest path

/-- The bag `P` restricted to the keys `ks`, in the order of `ks`,
with the empty string standing in for an absent key. -/
def restrictBag (P : List (Str × Str)) (ks : List Str) : List (Str × Str) :=
  ks.map (fun k => (k, (P.lookup k).getD []))

/-- The single construction-time failure of spec section 4.1. -/
inductive TemplateIssue where
  | malformedTemplateError

/-- Result of parsing one template (spec section 4.1): the ordered
segments, tagged `true` when the segment is a parameter, and the
required parameter names. -/
structure ParsedTemplate where
  segments : List (Bool × Str)
  required : List Str

/-- Modelled from the spec: the template parser of section 4.1, which
has no counterpart in the repository code (templates are used
unparsed).  Split the template on `'/'`; a segment is a parameter iff
its first character is `':'`, and its name is the remainder; fail with
`MalformedTemplateError` if a parameter name is empty or repeats. -/
def parseTemplate (t : Str) : Except TemplateIssue ParsedTemplate :=
  let segs := (splitChar '/' t).map
    (fun s => if [':'].isPrefixOf s then (true, s.drop 1) else (false, s))
  let names := (segs.filter (fun sg => sg.1)).map (fun sg => sg.2)
  if [] ∈ names ∨ ¬ names.Nodup then Except.error TemplateIssue.malformedTemplateError
  else Except.ok ⟨segs, names⟩

/-- Modelled from the spec: substitution by exact token matching
anchored to the parameter name (section 4.2's stated requirement) —
each whole segment that is a parameter token is replaced by the
corresponding value of the bag, and nothing else is touched.  Stated
from the spec's words in order to compare it with the repository's
`buildUrl`. -/
def buildUrlAnchored (path : Str) (params : List (Str × Str)) : Str :=
  List.intercalate ['/'] ((splitChar '/' path).map
    (fun seg => if [':'].isPrefixOf seg then ((params.lookup (seg.drop 1)).getD seg) else seg))

/-- One surviving token `':' ++ n` between marker-free blocks. -/
def StOne (n s : Str) : Prop :=
  ∃ B₀ B₁, ':' ∉ B₀ ∧ ':' ∉ B₁ ∧ s = B₀ ++ ':' :: (n ++ B₁)

/-- Two surviving tokens `':' ++ n₁` and `':' ++ n₂`, in template
order, between marker-free blocks. -/
def StTwo (n₁ n₂ s : Str) : Prop :=
  ∃ B₀ B₁ B₂, ':' ∉ B₀ ∧ ':' ∉ B₁ ∧ ':' ∉ B₂ ∧
    s = B₀ ++ ':' :: ((n₁ ++ B₁) ++ ':' :: (n₂ ++ B₂))

example : buildUrl (chars "/post/:id") [(chars "id", chars "42")] = chars "/post/42" := by
  decide

example : buildUrl (chars "/calendar/:year/:month")
    [(chars "year", chars "2024"), (chars "month", chars "5")]
    = chars "/calendar/2024/5" := by decide

example : buildUrl (chars "/post/:id") [(chars "i", chars "X"), (chars "id", chars "42")]
    = chars "/post/Xd" := by decide

example : isParams (chars "/post/:id") (JSValue.obj [(chars "id", JSValue.str (chars "42"))])
    = true := by decide

example : isParams (chars "/post/:id") (JSValue.obj []) = false := by decide

example : matchRegistry PATHS (chars "/post/42")
    = some (chars "/post/:id", [(chars "id", chars "42")]) := by decide

example : matchRegistry PATHS (chars "/post/42/extra") = none := by decide

example : matchRegistry PATHS (chars "/post/42/") = none := by decide

example : matchRegistry PATHS (chars "/post/") = none := by decide

example : matchRegistry PATHS (chars "/") = some (chars "/", []) := by decide

example : matchRegistry PATHS (chars "/nonexistent") = none := by decide

example : (parseTemplate (chars "/post/:id")).isOk = true := by decide

example : (parseTemplate (chars "/post/:")).isOk = false := by decide

example : (parseTemplate (chars "/a/:x/:x")).isOk = false := by decide

example : buildUrlAnchored (chars "/post/:id") [(chars "i", chars "X"), (chars "id", chars "42")]
    = chars "/post/42" := by decide

/-! ### Basic facts about the embedded string primitives -/

theorem isPrefixOf_append_self (p X : Str) : p.isPrefixOf (p ++ X) = true := by
  induction p with
  | nil => simp [List.isPrefixOf]
  | cons c rest ih => simp [List.isPrefixOf, ih]

theorem eq_append_of_isPrefixOf {p s : Str} (h : p.isPrefixOf s = true) :
    ∃ t, s = p ++ t := by
  induction p generalizing s with
  | nil => exact ⟨s, rfl⟩
  | cons c rest ih =>
    cases s with
    | nil => simp [List.isPrefixOf] at h
    | cons d tl =>
      simp only [List.isPrefixOf, Bool.and_eq_true, beq_iff_eq] at h
      obtain ⟨t, ht⟩ := ih h.2
      exact ⟨t, by simp [h.1, ht]⟩

theorem expandRepl_no_dollar (m b a : Str) {r : Str} (h : '$' ∉ r) :
    expandRepl m b a r = r := by
  induction r with
  | nil => rfl
  | cons c rest ih =>
    have hc : ¬ c = '$' := fun hc => h (hc ▸ List.mem_cons_self c rest)
    have hrest : '$' ∉ rest := fun hr => h (List.mem_cons_of_mem c hr)
    rw [expandRepl.eq_def]
    simp [hc, ih hrest]

theorem findOcc_colon_none {s : Str} (k : Str) (h : ':' ∉ s) :
    findOcc (':' :: k) s = none := by
  induction s with
  | nil => simp [findOcc]
  | cons c rest ih =>
    have hc : ¬ c = ':' := fun hc => h (hc ▸ List.mem_cons_self c rest)
    have hrest : ':' ∉ rest := fun hr => h (List.mem_cons_of_mem c hr)
    have hpre : (':' :: k).isPrefixOf (c :: rest) = false := by
      simp only [List.isPrefixOf, Bool.and_eq_false_iff]
      left
      simp [beq_eq_false_iff_ne]
      exact fun hcc => hc hcc.symm
    simp [findOcc, hpre, ih hrest]

theorem replaceFirst_of_none {s pat v : Str} (h : findOcc pat s = none) :
    replaceFirst s pat v = s := by
  simp [replaceFirst, h]

theorem findOcc_append_colonFree {A : Str} (k R : Str) (h : ':' ∉ A) :
    findOcc (':' :: k) (A ++ R) = (findOcc (':' :: k) R).map (· + A.length) := by
  induction A with
  | nil =>
    simp only [List.nil_append, List.length_nil]
    cases findOcc (':' :: k) R <;> simp
  | cons c rest ih =>
    have hc : ¬ c = ':' := fun hc => h (hc ▸ List.mem_cons_self c rest)
    have hrest : ':' ∉ rest := fun hr => h (List.mem_cons_of_mem c hr)
    have hpre : (':' :: k).isPrefixOf (c :: (rest ++ R)) = false := by
      simp only [List.isPrefixOf, Bool.and_eq_false_iff]
      left
      simp [beq_eq_false_iff_ne]
      exact fun hcc => hc hcc.symm
    rw [List.cons_append, findOcc.eq_def]
    simp only [hpre, Bool.false_eq_true, if_false, ih hrest, List.length_cons]
    cases findOcc (':' :: k) R with
    | none => simp
    | some i => simp; omega

theorem replaceFirst_append_of_shift {X Y p v : Str}
    (hocc : findOcc p (X ++ Y) = (findOcc p Y).map (· + X.length))
    (hv : '$' ∉ v) :
    replaceFirst (X ++ Y) p v = X ++ replaceFirst Y p v := by
  cases h : findOcc p Y with
  | none =>
    rw [replaceFirst_of_none (by simp [hocc, h]), replaceFirst_of_none h]
  | some i =>
    have hXY : findOcc p (X ++ Y) = some (i + X.length) := by simp [hocc, h]
    simp only [replaceFirst, hXY, h]
    rw [expandRepl_no_dollar _ _ _ hv, expandRepl_no_dollar _ _ _ hv]
    have h1 : i + X.length = X.length + i := Nat.add_comm _ _
    rw [h1]
    have h2 : X.length + i + p.length = X.length + (i + p.length) := by omega
    rw [h2, List.take_append, List.drop_append]
    simp

theorem replaceFirst_of_isPrefixOf {R v : Str} (k : Str)
    (h : (':' :: k).isPrefixOf R = true) (hv : '$' ∉ v) :
    replaceFirst R (':' :: k) v = v ++ R.drop (':' :: k).length := by
  cases R with
  | nil => simp [List.isPrefixOf] at h
  | cons c rest =>
    have hf : findOcc (':' :: k) (c :: rest) = some 0 := by
      rw [findOcc.eq_def]
      simp [h]
    simp only [replaceFirst, hf, List.take_zero, List.nil_append, Nat.zero_add]
    rw [expandRepl_no_dollar _ _ _ hv]

/-! ### Occurrence facts -/

theorem occursIn_of_isPrefixOf {p s : Str} (h : p.isPrefixOf s = true) :
    occursIn p s = true := by
  cases s with
  | nil =>
    cases p with
    | nil => simp [occursIn, findOcc]
    | cons c r => simp [List.isPrefixOf] at h
  | cons c rest => simp [occursIn, findOcc, h]

theorem occursIn_cons {p s : Str} (c : Char) (h : occursIn p s = true) :
    occursIn p (c :: s) = true := by
  by_cases hpre : p.isPrefixOf (c :: s) = true
  · simp [occursIn, findOcc, hpre]
  · rw [occursIn, findOcc.eq_def]
    simp only [hpre, if_false]
    simpa [occursIn] using h

theorem occursIn_append_left {p s : Str} (A : Str) (h : occursIn p s = true) :
    occursIn p (A ++ s) = true := by
  induction A with
  | nil => simpa using h
  | cons c rest ih => exact occursIn_cons c ih

theorem occursIn_self_append (p t : Str) : occursIn p (p ++ t) = true :=
  occursIn_of_isPrefixOf (isPrefixOf_append_self p t)

theorem not_occursIn_colon {s : Str} (k : Str) (h : ':' ∉ s) :
    occursIn (':' :: k) s = false := by
  simp [occursIn, findOcc_colon_none k h]

/-! ### Structure of `splitChar` -/

theorem splitChar_ne_nil (sep : Char) (l : Str) : splitChar sep l ≠ [] := by
  cases l with
  | nil => simp [splitChar]
  | cons c rest =>
    by_cases hc : c = sep <;> simp [splitChar, hc]

theorem splitChar_sep_cons (sep : Char) (l : Str) :
    splitChar sep (sep :: l) = [] :: splitChar sep l := by
  simp [splitChar]

theorem splitChar_of_not_mem {sep : Char} {l : Str} (h : sep ∉ l) :
    splitChar sep l = [l] := by
  induction l with
  | nil => rfl
  | cons c rest ih =>
    have hc : ¬ c = sep := fun hc => h (hc ▸ List.mem_cons_self c rest)
    have hrest : sep ∉ rest := fun hr => h (List.mem_cons_of_mem c hr)
    simp [splitChar, hc, ih hrest]

theorem splitChar_append_sep {sep : Char} {A : Str} (B : Str) (h : sep ∉ A) :
    splitChar sep (A ++ sep :: B) = A :: splitChar sep B := by
  induction A with
  | nil => simp [splitChar]
  | cons c rest ih =>
    have hc : ¬ c = sep := fun hc => h (hc ▸ List.mem_cons_self c rest)
    have hrest : sep ∉ rest := fun hr => h (List.mem_cons_of_mem c hr)
    simp [splitChar, hc, ih hrest]

theorem splitChar_head_append {sep : Char} {l h : Str} {t : List Str}
    (heq : splitChar sep l = h :: t) : ∃ B, l = h ++ B := by
  induction l generalizing h t with
  | nil =>
    simp [splitChar] at heq
    exact ⟨[], by simp [heq.1]⟩
  | cons c rest ih =>
    by_cases hc : c = sep
    · subst hc
      rw [splitChar_sep_cons] at heq
      exact ⟨c :: rest, by simp [← (List.cons_eq_cons.mp heq).1]⟩
    · obtain ⟨h', t', hrest⟩ := List.exists_cons_of_ne_nil (splitChar_ne_nil sep rest)
      simp only [splitChar, hc, if_false, hrest, List.headI, List.tail] at heq
      obtain ⟨hh, -⟩ := List.cons_eq_cons.mp heq
      obtain ⟨B, hB⟩ := ih hrest
      exact ⟨B, by simp [← hh, hB]⟩

theorem exists_decomp_of_mem_splitChar {sep : Char} {s l : Str}
    (h : s ∈ splitChar sep l) : ∃ A B, l = A ++ s ++ B := by
  induction l generalizing s with
  | nil =>
    simp [splitChar] at h
    exact ⟨[], [], by simp [h]⟩
  | cons c rest ih =>
    by_cases hc : c = sep
    · subst hc
      rw [splitChar_sep_cons] at h
      rcases List.mem_cons.mp h with h0 | hmem
      · exact ⟨[], c :: rest, by simp [h0]⟩
      · obtain ⟨A, B, hAB⟩ := ih hmem
        exact ⟨c :: A, B, by simp [hAB]⟩
    · obtain ⟨h', t', hrest⟩ := List.exists_cons_of_ne_nil (splitChar_ne_nil sep rest)
      simp only [splitChar, hc, if_false, hrest, List.headI, List.tail] at h
      rcases List.mem_cons.mp h with h0 | hmem
      · obtain ⟨B, hB⟩ := splitChar_head_append hrest
        exact ⟨[], B, by simp [h0, hB]⟩
      · obtain ⟨A, B, hAB⟩ := ih (by rw [hrest]; exact List.mem_cons_of_mem h' hmem)
        exact ⟨c :: A, B, by simp [hAB]⟩

/-! ### The colon-accounting state machine behind `buildUrl`

With every value of the bag free of `':'` and `'$'`, the working
string of `buildUrl` always consists of marker-free blocks separated
by the surviving parameter tokens of the template, and processing a
key can only remove tokens.  `StOne`/`StTwo` are the one- and
two-token shapes of that invariant. -/

theorem colonFree_drop {l : Str} (n : Nat) (h : ':' ∉ l) : ':' ∉ l.drop n :=
  fun hm => h (List.drop_subset n l hm)

theorem buildStep_colonFree {t : Str} (kv : Str × Str) (h : ':' ∉ t) :
    buildStep t kv = t :=
  replaceFirst_of_none (findOcc_colon_none kv.1 h)

theorem foldl_buildStep_colonFree {t : Str} (P : List (Str × Str)) (h : ':' ∉ t) :
    P.foldl buildStep t = t := by
  induction P with
  | nil => rfl
  | cons kv P' ih => rw [List.foldl_cons, buildStep_colonFree kv h, ih]

theorem drop_cf_token {X W : Str} (hX : ':' ∉ X) (hW : ':' ∉ W) (j : Nat) :
    (∃ C, ':' ∉ C ∧ (X ++ ':' :: W).drop j = C ++ ':' :: W) ∨
      ':' ∉ (X ++ ':' :: W).drop j := by
  by_cases hj : j ≤ X.length
  · left
    refine ⟨X.drop j, colonFree_drop j hX, ?_⟩
    rw [List.drop_append_of_le_length hj]
  · have hlt : X.length < j := Nat.lt_of_not_le hj
    right
    have hj' : j = X.length + ((j - X.length - 1) + 1) := by omega
    rw [hj', List.drop_append]
    simp only [List.drop_succ_cons]
    exact colonFree_drop _ hW

theorem findOcc_token_block {k X R : Str} (hX : ':' ∉ X)
    (hpre : (':' :: k).isPrefixOf (':' :: (X ++ R)) = false) :
    findOcc (':' :: k) ((':' :: X) ++ R) = (findOcc (':' :: k) R).map (· + (X.length + 1)) := by
  rw [List.cons_append, findOcc.eq_def]
  simp only [hpre, Bool.false_eq_true, if_false, findOcc_append_colonFree k R hX]
  cases findOcc (':' :: k) R with
  | none => simp
  | some i => simp; omega

theorem stepOne {n s v : Str} (k : Str) (hn : ':' ∉ n) (hv : ':' ∉ v) (hv2 : '$' ∉ v)
    (hs : StOne n s) :
    (replaceFirst s (':' :: k) v = s ∨ ':' ∉ replaceFirst s (':' :: k) v) ∧
    (k = n → ':' ∉ replaceFirst s (':' :: k) v) := by
  obtain ⟨B₀, B₁, h₀, h₁, rfl⟩ := hs
  have hocc := findOcc_append_colonFree k (':' :: (n ++ B₁)) h₀
  by_cases hpre : (':' :: k).isPrefixOf (':' :: (n ++ B₁)) = true
  · have hres : replaceFirst (B₀ ++ ':' :: (n ++ B₁)) (':' :: k) v
        = B₀ ++ (v ++ (n ++ B₁).drop k.length) := by
      rw [replaceFirst_append_of_shift hocc hv2, replaceFirst_of_isPrefixOf k hpre hv2]
      simp
    have hcf : ':' ∉ B₀ ++ (v ++ (n ++ B₁).drop k.length) := by
      simp only [List.mem_append, not_or]
      refine ⟨h₀, hv, colonFree_drop _ ?_⟩
      simp only [List.mem_append, not_or]
      exact ⟨hn, h₁⟩
    rw [hres]
    exact ⟨Or.inr hcf, fun _ => hcf⟩
  · have hinner : findOcc (':' :: k) (':' :: (n ++ B₁)) = none := by
      rw [findOcc.eq_def]
      simp only [hpre, Bool.false_eq_true, if_false]
      rw [findOcc_colon_none k (by simp only [List.mem_append, not_or]; exact ⟨hn, h₁⟩)]
      rfl
    have hid : replaceFirst (B₀ ++ ':' :: (n ++ B₁)) (':' :: k) v
        = B₀ ++ ':' :: (n ++ B₁) :=
      replaceFirst_of_none (by rw [hocc, hinner]; rfl)
    refine ⟨Or.inl hid, fun hk => absurd ?_ hpre⟩
    subst hk
    simp [List.isPrefixOf, isPrefixOf_append_self]

theorem foldOne {n : Str} (hn : ':' ∉ n) :
    ∀ (P : List (Str × Str)) (s : Str),
      (∀ kv ∈ P, ':' ∉ kv.2 ∧ '$' ∉ kv.2) → StOne n s → n ∈ P.map Prod.fst →
      ':' ∉ P.foldl buildStep s := by
  intro P
  induction P with
  | nil => intro s _ _ hmem; simp at hmem
  | cons kv P' ih =>
    intro s hvals hs hmem
    obtain ⟨hv, hv2⟩ := hvals kv (List.mem_cons_self kv P')
    have hvals' : ∀ kv' ∈ P', ':' ∉ kv'.2 ∧ '$' ∉ kv'.2 :=
      fun kv' h => hvals kv' (List.mem_cons_of_mem kv h)
    have hstep := stepOne kv.1 hn hv hv2 hs
    rw [List.foldl_cons]
    have hbs : buildStep s kv = replaceFirst s (':' :: kv.1) kv.2 := rfl
    rw [hbs]
    by_cases hk : kv.1 = n
    · have hcf := hstep.2 hk
      rw [foldl_buildStep_colonFree P' hcf]
      exact hcf
    · rcases hstep.1 with heq | hcf
      · have hmem' : n ∈ P'.map Prod.fst := by
          rw [List.map_cons] at hmem
          rcases List.mem_cons.mp hmem with h | h
          · exact absurd h.symm hk
          · exact h
        rw [heq]
        exact ih s hvals' hs hmem'
      · rw [foldl_buildStep_colonFree P' hcf]
        exact hcf

theorem stepTwo {n₁ n₂ s v : Str} (k : Str) (hn₁ : ':' ∉ n₁) (hn₂ : ':' ∉ n₂)
    (hne : ∀ X, (':' :: n₂).isPrefixOf (':' :: (n₁ ++ X)) = false)
    (hv : ':' ∉ v) (hv2 : '$' ∉ v) (hs : StTwo n₁ n₂ s) :
    (k = n₁ → StOne n₂ (replaceFirst s (':' :: k) v) ∨ ':' ∉ replaceFirst s (':' :: k) v) ∧
    (k = n₂ → StOne n₁ (replaceFirst s (':' :: k) v)) ∧
    (StTwo n₁ n₂ (replaceFirst s (':' :: k) v) ∨ StOne n₁ (replaceFirst s (':' :: k) v) ∨
      StOne n₂ (replaceFirst s (':' :: k) v) ∨ ':' ∉ replaceFirst s (':' :: k) v) := by
  obtain ⟨B₀, B₁, B₂, h₀, h₁, h₂, rfl⟩ := hs
  have hX : ':' ∉ n₁ ++ B₁ := by
    simp only [List.mem_append, not_or]
    exact ⟨hn₁, h₁⟩
  have hW : ':' ∉ n₂ ++ B₂ := by
    simp only [List.mem_append, not_or]
    exact ⟨hn₂, h₂⟩
  have hocc := findOcc_append_colonFree k ((':' :: ((n₁ ++ B₁) ++ ':' :: (n₂ ++ B₂)))) h₀
  by_cases hpre : (':' :: k).isPrefixOf (':' :: ((n₁ ++ B₁) ++ ':' :: (n₂ ++ B₂))) = true
  · -- the match starts at the first surviving token
    have hres : replaceFirst (B₀ ++ ':' :: ((n₁ ++ B₁) ++ ':' :: (n₂ ++ B₂))) (':' :: k) v
        = B₀ ++ (v ++ ((n₁ ++ B₁) ++ ':' :: (n₂ ++ B₂)).drop k.length) := by
      rw [replaceFirst_append_of_shift hocc hv2, replaceFirst_of_isPrefixOf k hpre hv2]
      simp
    have hkn₂ : k = n₂ → False := by
      intro hk
      rw [hk] at hpre
      have := hne (B₁ ++ ':' :: (n₂ ++ B₂))
      rw [← List.append_assoc] at this
      rw [this] at hpre
      cases hpre
    rcases drop_cf_token hX hW k.length with ⟨C, hC, hdrop⟩ | hdcf
    · have hone : StOne n₂ (B₀ ++ (v ++ ((n₁ ++ B₁) ++ ':' :: (n₂ ++ B₂)).drop k.length)) := by
        refine ⟨B₀ ++ (v ++ C), B₂, ?_, h₂, ?_⟩
        · simp only [List.mem_append, not_or]
          exact ⟨h₀, hv, hC⟩
        · rw [hdrop]
          simp [List.append_assoc]
      rw [hres]
      exact ⟨fun _ => Or.inl hone, fun hk => absurd hk (fun hk => hkn₂ hk),
        Or.inr (Or.inr (Or.inl hone))⟩
    · have hcf : ':' ∉ B₀ ++ (v ++ ((n₁ ++ B₁) ++ ':' :: (n₂ ++ B₂)).drop k.length) := by
        simp only [List.mem_append, not_or]
        exact ⟨h₀, hv, hdcf⟩
      rw [hres]
      exact ⟨fun _ => Or.inr hcf, fun hk => absurd hk (fun hk => hkn₂ hk),
        Or.inr (Or.inr (Or.inr hcf))⟩
  · -- no match at the first token
    have hkn₁ : k = n₁ → False := by
      intro hk
      rw [hk] at hpre
      apply hpre
      have : (n₁ ++ B₁) ++ ':' :: (n₂ ++ B₂) = n₁ ++ (B₁ ++ ':' :: (n₂ ++ B₂)) :=
        List.append_assoc _ _ _
      rw [this]
      simp [List.isPrefixOf, isPrefixOf_append_self]
    have hpre' : (':' :: k).isPrefixOf (':' :: ((n₁ ++ B₁) ++ ':' :: (n₂ ++ B₂))) = false :=
      Bool.eq_false_iff.mpr hpre
    have hocc2 := findOcc_token_block hX hpre'
    have hocc2' : findOcc (':' :: k) ((':' :: (n₁ ++ B₁)) ++ ':' :: (n₂ ++ B₂))
        = (findOcc (':' :: k) (':' :: (n₂ ++ B₂))).map (· + (':' :: (n₁ ++ B₁)).length) := by
      rw [hocc2]
      simp
    by_cases hpre2 : (':' :: k).isPrefixOf (':' :: (n₂ ++ B₂)) = true
    · -- the match starts at the second surviving token
      have hres : replaceFirst (B₀ ++ ':' :: ((n₁ ++ B₁) ++ ':' :: (n₂ ++ B₂))) (':' :: k) v
          = B₀ ++ ':' :: (n₁ ++ (B₁ ++ (v ++ (n₂ ++ B₂).drop k.length))) := by
        rw [replaceFirst_append_of_shift hocc hv2, ← List.cons_append,
          replaceFirst_append_of_shift hocc2' hv2, replaceFirst_of_isPrefixOf k hpre2 hv2]
        simp [List.append_assoc]
      have hone : StOne n₁ (B₀ ++ ':' :: (n₁ ++ (B₁ ++ (v ++ (n₂ ++ B₂).drop k.length)))) := by
        refine ⟨B₀, B₁ ++ (v ++ (n₂ ++ B₂).drop k.length), h₀, ?_, rfl⟩
        simp only [List.mem_append, not_or]
        exact ⟨h₁, hv, colonFree_drop _ hW⟩
      rw [hres]
      exact ⟨fun hk => absurd hk (fun hk => hkn₁ hk), fun _ => hone,
        Or.inr (Or.inl hone)⟩
    · -- no surviving token matches: the string is unchanged
      have hkn₂ : k = n₂ → False := by
        intro hk
        subst hk
        apply hpre2
        simp [List.isPrefixOf, isPrefixOf_append_self]
      have hnone : findOcc (':' :: k) (':' :: (n₂ ++ B₂)) = none := by
        rw [findOcc.eq_def]
        simp only [Bool.eq_false_iff.mpr hpre2, Bool.false_eq_true, if_false]
        rw [findOcc_colon_none k hW]
        rfl
      have hid : replaceFirst (B₀ ++ ':' :: ((n₁ ++ B₁) ++ ':' :: (n₂ ++ B₂))) (':' :: k) v
          = B₀ ++ ':' :: ((n₁ ++ B₁) ++ ':' :: (n₂ ++ B₂)) := by
        apply replaceFirst_of_none
        rw [hocc]
        rw [show (':' :: ((n₁ ++ B₁) ++ ':' :: (n₂ ++ B₂)))
            = (':' :: (n₁ ++ B₁)) ++ ':' :: (n₂ ++ B₂) from by simp, hocc2', hnone]
        rfl
      rw [hid]
      exact ⟨fun hk => absurd hk (fun hk => hkn₁ hk), fun hk => absurd hk (fun hk => hkn₂ hk),
        Or.inl ⟨B₀, B₁, B₂, h₀, h₁, h₂, rfl⟩⟩

theorem foldTwo {n₁ n₂ : Str} (hn₁ : ':' ∉ n₁) (hn₂ : ':' ∉ n₂) (h12 : n₁ ≠ n₂)
    (hne : ∀ X, (':' :: n₂).isPrefixOf (':' :: (n₁ ++ X)) = false) :
    ∀ (P : List (Str × Str)) (s : Str),
      (∀ kv ∈ P, ':' ∉ kv.2 ∧ '$' ∉ kv.2) → StTwo n₁ n₂ s →
      n₁ ∈ P.map Prod.fst → n₂ ∈ P.map Prod.fst →
      ':' ∉ P.foldl buildStep s := by
  intro P
  induction P with
  | nil => intro s _ _ hmem _; simp at hmem
  | cons kv P' ih =>
    intro s hvals hs hmem₁ hmem₂
    obtain ⟨hv, hv2⟩ := hvals kv (List.mem_cons_self kv P')
    have hvals' : ∀ kv' ∈ P', ':' ∉ kv'.2 ∧ '$' ∉ kv'.2 :=
      fun kv' h => hvals kv' (List.mem_cons_of_mem kv h)
    have hstep := stepTwo kv.1 hn₁ hn₂ hne hv hv2 hs
    rw [List.foldl_cons]
    have hbs : buildStep s kv = replaceFirst s (':' :: kv.1) kv.2 := rfl
    rw [hbs]
    rw [List.map_cons] at hmem₁ hmem₂
    by_cases hk1 : kv.1 = n₁
    · have hmem₂' : n₂ ∈ P'.map Prod.fst := by
        rcases List.mem_cons.mp hmem₂ with h | h
        · exact absurd (h.trans hk1).symm h12
        · exact h
      rcases hstep.1 hk1 with hone | hcf
      · exact foldOne hn₂ P' _ hvals' hone hmem₂'
      · rw [foldl_buildStep_colonFree P' hcf]
        exact hcf
    · by_cases hk2 : kv.1 = n₂
      · have hmem₁' : n₁ ∈ P'.map Prod.fst := by
          rcases List.mem_cons.mp hmem₁ with h | h
          · exact absurd h.symm hk1
          · exact h
        exact foldOne hn₁ P' _ hvals' (hstep.2.1 hk2) hmem₁'
      · have hmem₁' : n₁ ∈ P'.map Prod.fst := by
          rcases List.mem_cons.mp hmem₁ with h | h
          · exact absurd h.symm hk1
          · exact h
        have hmem₂' : n₂ ∈ P'.map Prod.fst := by
          rcases List.mem_cons.mp hmem₂ with h | h
          · exact absurd h.symm hk2
          · exact h
        rcases hstep.2.2 with h2 | h1 | hone2 | hcf
        · exact ih _ hvals' h2 hmem₁' hmem₂'
        · exact foldOne hn₁ P' _ hvals' h1 hmem₁'
        · exact foldOne hn₂ P' _ hvals' hone2 hmem₂'
        · rw [foldl_buildStep_colonFree P' hcf]
          exact hcf

theorem occursIn_token_of_required {k T : Str} (h : k ∈ requiredParams T) :
    occursIn (':' :: k) T = true := by
  simp only [requiredParams, List.mem_map, List.mem_filter] at h
  obtain ⟨s, ⟨hmem, hpre⟩, hdrop⟩ := h
  obtain ⟨t, ht⟩ := eq_append_of_isPrefixOf hpre
  have hs : s = ':' :: k := by
    rw [ht] at hdrop ⊢
    simp at hdrop
    simp [hdrop]
  obtain ⟨A, B, hAB⟩ := exists_decomp_of_mem_splitChar hmem
  rw [hAB, hs, List.append_assoc]
  exact occursIn_append_left A (occursIn_self_append _ B)

/-! ### Concrete evaluations of `buildUrl` on the registered templates -/

theorem buildUrl_post (v : Str) (hv2 : '$' ∉ v) :
    buildUrl (chars "/post/:id") [(chars "id", v)] = chars "/post/" ++ v := by
  have h0 : ':' ∉ chars "/post/" := by decide
  have hocc := findOcc_append_colonFree (chars "id") (chars ":id") h0
  show replaceFirst (chars "/post/" ++ chars ":id") (':' :: chars "id") v = chars "/post/" ++ v
  rw [replaceFirst_append_of_shift hocc hv2,
    replaceFirst_of_isPrefixOf (chars "id") (by decide) hv2,
    show (chars ":id").drop (':' :: chars "id").length = [] from rfl, List.append_nil]

theorem buildUrl_cal_ym (y m : Str) (hy : ':' ∉ y) (hy2 : '$' ∉ y) (hm2 : '$' ∉ m) :
    buildUrl (chars "/calendar/:year/:month") [(chars "year", y), (chars "month", m)]
      = chars "/calendar/" ++ (y ++ '/' :: m) := by
  have hf1 : findOcc (':' :: chars "year") (chars "/calendar/:year/:month") = some 10 := by
    decide
  have hs1 : buildStep (chars "/calendar/:year/:month") (chars "year", y)
      = chars "/calendar/" ++ y ++ chars "/:month" := by
    show replaceFirst (chars "/calendar/:year/:month") (':' :: chars "year") y = _
    simp only [replaceFirst, hf1]
    rw [expandRepl_no_dollar _ _ _ hy2]
    rfl
  have hregroup : chars "/calendar/" ++ y ++ chars "/:month"
      = (chars "/calendar/" ++ y ++ ['/']) ++ chars ":month" := by
    rw [show chars "/:month" = ['/'] ++ chars ":month" from rfl]
    simp [List.append_assoc]
  have hA : ':' ∉ chars "/calendar/" ++ y ++ ['/'] := by
    simp only [List.mem_append, not_or]
    refine ⟨⟨by decide, hy⟩, by decide⟩
  have hocc := findOcc_append_colonFree (chars "month") (chars ":month") hA
  show List.foldl buildStep (buildStep (chars "/calendar/:year/:month") (chars "year", y))
      [(chars "month", m)] = _
  rw [hs1]
  show replaceFirst (chars "/calendar/" ++ y ++ chars "/:month") (':' :: chars "month") m = _
  rw [hregroup, replaceFirst_append_of_shift hocc hm2,
    replaceFirst_of_isPrefixOf (chars "month") (by decide) hm2,
    show (chars ":month").drop (':' :: chars "month").length = [] from rfl, List.append_nil]
  simp [List.append_assoc]

theorem buildUrl_cal_my (y m : Str) (hy2 : '$' ∉ y) (hm2 : '$' ∉ m) :
    buildUrl (chars "/calendar/:year/:month") [(chars "month", m), (chars "year", y)]
      = chars "/calendar/" ++ (y ++ '/' :: m) := by
  have hf1 : findOcc (':' :: chars "month") (chars "/calendar/:year/:month") = some 16 := by
    decide
  have hs1 : buildStep (chars "/calendar/:year/:month") (chars "month", m)
      = chars "/calendar/:year/" ++ m := by
    show replaceFirst (chars "/calendar/:year/:month") (':' :: chars "month") m = _
    simp only [replaceFirst, hf1]
    rw [expandRepl_no_dollar _ _ _ hm2,
      show List.drop (16 + (':' :: chars "month").length) (chars "/calendar/:year/:month")
        = [] from rfl,
      List.append_nil,
      show List.take 16 (chars "/calendar/:year/:month") = chars "/calendar/:year/" from rfl]
  have h0 : ':' ∉ chars "/calendar/" := by decide
  have hocc := findOcc_append_colonFree (chars "year") (chars ":year/" ++ m) h0
  show List.foldl buildStep (buildStep (chars "/calendar/:year/:month") (chars "month", m))
      [(chars "year", y)] = _
  rw [hs1]
  show replaceFirst (chars "/calendar/" ++ (chars ":year/" ++ m)) (':' :: chars "year") y = _
  rw [replaceFirst_append_of_shift hocc hy2]
  have hpre : (':' :: chars "year").isPrefixOf (chars ":year/" ++ m) = true := by
    rw [show chars ":year/" ++ m = (':' :: chars "year") ++ ('/' :: m) from rfl]
    exact isPrefixOf_append_self _ _
  have hdrop : (chars ":year/" ++ m).drop (':' :: chars "year").length = '/' :: m := by
    rw [show chars ":year/" ++ m = (':' :: chars "year") ++ ('/' :: m) from rfl]
    exact List.drop_left _ _
  rw [replaceFirst_of_isPrefixOf (chars "year") hpre hy2, hdrop]

/-! ### Concrete evaluations of the spec-modelled matcher -/

theorem splitChar_path_post (v : Str) (hv : '/' ∉ v) :
    splitChar '/' (chars "/post/" ++ v) = [[], chars "post", v] := by
  rw [show chars "/post/" ++ v = '/' :: (chars "post" ++ '/' :: v) from rfl,
    splitChar_sep_cons, splitChar_append_sep v (by decide), splitChar_of_not_mem hv]

theorem splitChar_path_cal (y m : Str) (hy : '/' ∉ y) (hm : '/' ∉ m) :
    splitChar '/' (chars "/calendar/" ++ (y ++ '/' :: m))
      = [[], chars "calendar", y, m] := by
  rw [show chars "/calendar/" ++ (y ++ '/' :: m)
      = '/' :: (chars "calendar" ++ '/' :: (y ++ '/' :: m)) from rfl,
    splitChar_sep_cons, splitChar_append_sep _ (by decide), splitChar_append_sep m hy,
    splitChar_of_not_mem hm]

theorem matchTemplate_length_ne {t p : Str} (lt lp : List Str)
    (ht : splitChar '/' t = lt) (hp : splitChar '/' p = lp)
    (h : (lt.length == lp.length) = false) :
    matchTemplate t p = none := by
  simp only [matchTemplate, ht, hp, h, Bool.false_and, Bool.false_eq_true, if_false]

theorem matchRegistry_post (v : Str) (hv : '/' ∉ v) (hne : v ≠ []) :
    matchRegistry PATHS (chars "/post/" ++ v)
      = some (chars "/post/:id", [(chars "id", v)]) := by
  have hps := splitChar_path_post v hv
  have hvE : v.isEmpty = false := by
    cases v with
    | nil => exact absurd rfl hne
    | cons c r => rfl
  have h1 : matchTemplate (chars "/") (chars "/post/" ++ v) = none :=
    matchTemplate_length_ne [[], []] [[], chars "post", v] (by decide) hps (by simp)
  have h2 : matchTemplate (chars "/signup") (chars "/post/" ++ v) = none :=
    matchTemplate_length_ne [[], chars "signup"] [[], chars "post", v] (by decide) hps (by simp)
  have h3 : matchTemplate (chars "/login") (chars "/post/" ++ v) = none :=
    matchTemplate_length_ne [[], chars "login"] [[], chars "post", v] (by decide) hps (by simp)
  have e0 : ([':'].isPrefixOf ([] : Str)) = false := by decide
  have e1 : ([':'].isPrefixOf (chars "post")) = false := by decide
  have e2 : ([':'].isPrefixOf (chars ":id")) = true := by decide
  have e3 : (chars ":id").drop 1 = chars "id" := by decide
  have h4 : matchTemplate (chars "/post/:id") (chars "/post/" ++ v)
      = some [(chars "id", v)] := by
    simp only [matchTemplate, hps,
      show splitChar '/' (chars "/post/:id") = [[], chars "post", chars ":id"] from by decide]
    simp [List.zip, List.zipWith, List.filter, segMatches, e0, e1, e2, e3, hvE]
    exact ⟨⟨Or.inl (by decide), Or.inl (by decide)⟩, by decide⟩
  simp only [PATHS, matchRegistry, h1, h2, h3, h4]

theorem matchRegistry_cal (y m : Str) (hy : '/' ∉ y) (hm : '/' ∉ m)
    (hyne : y ≠ []) (hmne : m ≠ []) :
    matchRegistry PATHS (chars "/calendar/" ++ (y ++ '/' :: m))
      = some (chars "/calendar/:year/:month", [(chars "year", y), (chars "month", m)]) := by
  have hps := splitChar_path_cal y m hy hm
  have hyE : y.isEmpty = false := by
    cases y with
    | nil => exact absurd rfl hyne
    | cons c r => rfl
  have hmE : m.isEmpty = false := by
    cases m with
    | nil => exact absurd rfl hmne
    | cons c r => rfl
  have h1 : matchTemplate (chars "/") (chars "/calendar/" ++ (y ++ '/' :: m)) = none :=
    matchTemplate_length_ne [[], []] [[], chars "calendar", y, m] (by decide) hps (by simp)
  have h2 : matchTemplate (chars "/signup") (chars "/calendar/" ++ (y ++ '/' :: m)) = none :=
    matchTemplate_length_ne [[], chars "signup"] [[], chars "calendar", y, m]
      (by decide) hps (by simp)
  have h3 : matchTemplate (chars "/login") (chars "/calendar/" ++ (y ++ '/' :: m)) = none :=
    matchTemplate_length_ne [[], chars "login"] [[], chars "calendar", y, m]
      (by decide) hps (by simp)
  have h4 : matchTemplate (chars "/post/:id") (chars "/calendar/" ++ (y ++ '/' :: m)) = none :=
    matchTemplate_length_ne [[], chars "post", chars ":id"] [[], chars "calendar", y, m]
      (by decide) hps (by simp)
  have e0 : ([':'].isPrefixOf ([] : Str)) = false := by decide
  have e1 : ([':'].isPrefixOf (chars "calendar")) = false := by decide
  have e2 : ([':'].isPrefixOf (chars ":year")) = true := by decide
  have e3 : ([':'].isPrefixOf (chars ":month")) = true := by decide
  have e4 : (chars ":year").drop 1 = chars "year" := by decide
  have e5 : (chars ":month").drop 1 = chars "month" := by decide
  have h5 : matchTemplate (chars "/calendar/:year/:month")
      (chars "/calendar/" ++ (y ++ '/' :: m))
      = some [(chars "year", y), (chars "month", m)] := by
    simp only [matchTemplate, hps,
      show splitChar '/' (chars "/calendar/:year/:month")
        = [[], chars "calendar", chars ":year", chars ":month"] from by decide]
    simp [List.zip, List.zipWith, List.filter, segMatches, e0, e1, e2, e3, e4, e5, hyE, hmE]
    exact ⟨⟨Or.inl (by decide), Or.inl (by decide), Or.inl (by decide)⟩, by decide, by decide⟩
  simp only [PATHS, matchRegistry, h1, h2, h3, h4, h5]

/-! ### Remaining helper lemmas -/

theorem perm_pair {α : Type _} {l : List α} {a b : α} (h : l.Perm [a, b]) :
    l = [a, b] ∨ l = [b, a] := by
  have hlen : l.length = 2 := by simpa using h.length_eq
  match l, hlen with
  | [x, y], _ =>
    have hx : x ∈ [a, b] := h.mem_iff.mp (List.mem_cons_self x [y])
    rcases List.mem_cons.mp hx with rfl | hx'
    · left
      have : [y].Perm [b] := h.cons_inv
      rw [List.perm_singleton.mp this]
    · have hxb : x = b := by simpa using hx'
      subst hxb
      right
      have hswap : ([x, y] : List α).Perm [x, a] :=
        h.trans (List.Perm.swap x a [])
      have : [y].Perm [a] := hswap.cons_inv
      rw [List.perm_singleton.mp this]

theorem bag_of_map_fst₁ {P : List (Str × Str)} {k : Str} (h : P.map Prod.fst = [k]) :
    ∃ v, P = [(k, v)] := by
  match P, h with
  | [(k', v)], h =>
    simp only [List.map_cons, List.map_nil, List.cons.injEq, and_true] at h
    exact ⟨v, by rw [h]⟩

theorem bag_of_map_fst₂ {P : List (Str × Str)} {k₁ k₂ : Str}
    (h : P.map Prod.fst = [k₁, k₂]) : ∃ v₁ v₂, P = [(k₁, v₁), (k₂, v₂)] := by
  match P, h with
  | [(k₁', v₁), (k₂', v₂)], h =>
    simp only [List.map_cons, List.map_nil, List.cons.injEq, and_true] at h
    exact ⟨v₁, v₂, by rw [h.1, h.2]⟩

theorem findOcc_eq_none_of_not_occursIn {pat s : Str} (h : occursIn pat s = false) :
    findOcc pat s = none := by
  cases hf : findOcc pat s with
  | none => rfl
  | some i => simp [occursIn, hf] at h

theorem foldl_buildStep_no_occ {T : Str} (P : List (Str × Str))
    (h : ∀ q ∈ P.map Prod.fst, occursIn (':' :: q) T = false) :
    P.foldl buildStep T = T := by
  induction P with
  | nil => rfl
  | cons kv P' ih =>
    have h1 : occursIn (':' :: kv.1) T = false := h kv.1 (by simp)
    have hstep : buildStep T kv = T :=
      replaceFirst_of_none (findOcc_eq_none_of_not_occursIn h1)
    rw [List.foldl_cons, hstep, ih (fun q hq => h q (by simp [hq]))]

theorem month_not_pre_year (X : Str) :
    (':' :: chars "month").isPrefixOf (':' :: (chars "year" ++ X)) = false := by
  rw [show chars "year" ++ X = 'y' :: (chars "ear" ++ X) from rfl,
    show chars "month" = 'm' :: chars "onth" from rfl]
  simp [List.isPrefixOf]

theorem isParams_keys (T : Str) (c : JSValue) (hgate : instanceofObject c = true) :
    (isParams T c = true ↔ ∀ k ∈ requiredParams T, k ∈ jsKeys c) := by
  simp only [isParams, hgate, Bool.not_true, Bool.false_eq_true, if_false,
    List.all_eq_true]
  constructor
  · intro h k hk
    exact List.elem_iff.mp (h k hk)
  · intro h k hk
    exact List.elem_iff.mpr (h k hk)

theorem parseTemplate_names (t : Str) :
    ((((splitChar '/' t).map
        (fun s => if [':'].isPrefixOf s then (true, s.drop 1) else (false, s))).filter
          (fun sg => sg.1)).map (fun sg => sg.2)) = requiredParams t := by
  rw [requiredParams]
  induction splitChar '/' t with
  | nil => rfl
  | cons s l ih =>
    by_cases hs : [':'].isPrefixOf s = true
    · have hp : (fun sg : Bool × Str => sg.1) (true, s.drop 1) = true := rfl
      rw [List.map_cons, if_pos hs, List.filter_cons_of_pos hp, List.map_cons, ih,
        List.filter_cons_of_pos hs, List.map_cons]
    · have hs' : [':'].isPrefixOf s = false := Bool.eq_false_iff.mpr hs
      have hp : (fun sg : Bool × Str => sg.1) (false, s) = false := rfl
      rw [List.map_cons, if_neg hs, List.filter_cons_of_neg (by simp), ih,
        List.filter_cons_of_neg hs]

/-! ## The claims -/

/-- C5: for every template `T` and every non-null plain-object
candidate, `isParams T` returns `true` exactly when the candidate's
key set contains every required parameter name of `T` (the names of
the `'/'`-delimited segments of `T` starting with `':'`); any missing
required key makes it `false`, and extra keys never cause
rejection. -/
theorem C5_isParams_superset (T : Str) (fields : List (Str × JSValue)) :
    isParams T (JSValue.obj fields) = true ↔
      ∀ k ∈ requiredParams T, k ∈ fields.map Prod.fst :=
  isParams_keys T (JSValue.obj fields) rfl

/-- C6: the spec-modelled construction-time template parser fails with
`MalformedTemplateError` exactly for the template strings in which
some parameter segment has an empty name or a parameter name repeats;
well-formed templates never raise it. -/
theorem C6_parse_malformed_iff (t : Str) :
    parseTemplate t = Except.error TemplateIssue.malformedTemplateError ↔
      ([] ∈ requiredParams t ∨ ¬ (requiredParams t).Nodup) := by
  simp only [parseTemplate, parseTemplate_names]
  by_cases h : [] ∈ requiredParams t ∨ ¬ (requiredParams t).Nodup
  · simp [h]
  · simp [h]

/-- C8: `isParams` returns `false` — as a boolean value, never by
raising — for `undefined`, `null` and every primitive candidate
(string, number, boolean); in this embedding `isParams` is a total
function into `Bool`, so every negative outcome is a returned value. -/
theorem C8_primitives_rejected (T : Str) :
    isParams T JSValue.undef = false ∧ isParams T JSValue.jsNull = false ∧
    (∀ s, isParams T (JSValue.str s) = false) ∧
    (∀ n, isParams T (JSValue.num n) = false) ∧
    (∀ b, isParams T (JSValue.boolean b) = false) :=
  ⟨rfl, rfl, fun _ => rfl, fun _ => rfl, fun _ => rfl⟩

/-- C9: the `instanceof Object` gate of `isParams` admits arrays (and
functions), so for an array candidate the verdict reduces to the
key-subset check over the array's own keys (its decimal index
strings); in particular for the parameterless template `/` every array
passes, e.g. `isParams('/', [])` is true. -/
theorem C9_arrays_admitted :
    (∀ (T : Str) (es : List JSValue),
      isParams T (JSValue.arr es) = true ↔
        ∀ k ∈ requiredParams T, k ∈ jsKeys (JSValue.arr es)) ∧
    isParams (chars "/") (JSValue.arr []) = true :=
  ⟨fun T es => isParams_keys T (JSValue.arr es) rfl, by decide⟩

/-- C10: the verdict of `isParams` depends only on the candidate's key
set, never on the stored values: two candidates passing the structure
gate with equal key sets get the same verdict on every template. -/
theorem C10_keys_only (T : Str) (c₁ c₂ : JSValue)
    (h₁ : instanceofObject c₁ = true) (h₂ : instanceofObject c₂ = true)
    (hkeys : ∀ k, k ∈ jsKeys c₁ ↔ k ∈ jsKeys c₂) :
    isParams T c₁ = isParams T c₂ := by
  have e₁ := isParams_keys T c₁ h₁
  have e₂ := isParams_keys T c₂ h₂
  cases hb : isParams T c₂ with
  | false =>
    cases hb1 : isParams T c₁ with
    | false => rfl
    | true =>
      exfalso
      have hall := e₁.mp hb1
      have h2' : ∀ k ∈ requiredParams T, k ∈ jsKeys c₂ :=
        fun k hk => (hkeys k).mp (hall k hk)
      rw [e₂.mpr h2'] at hb
      cases hb
  | true =>
    rw [e₁.mpr (fun k hk => (hkeys k).mpr (e₂.mp hb k hk))]

/-- Witness for C10: two objects with the same single key `id` but
different (even non-string) values get the same verdict. -/
theorem C10_witness :
    isParams (chars "/post/:id") (JSValue.obj [(chars "id", JSValue.str (chars "42"))])
      = isParams (chars "/post/:id") (JSValue.obj [(chars "id", JSValue.undef)]) :=
  C10_keys_only (chars "/post/:id")
    (JSValue.obj [(chars "id", JSValue.str (chars "42"))])
    (JSValue.obj [(chars "id", JSValue.undef)]) rfl rfl (fun _ => Iff.rfl)

/-- C7: when a required parameter name `k` of `T` is absent from the
bag and no key of the bag has its marker token occurring anywhere in
`T`, `buildUrl` does not fail: it returns a string that still contains
the unreplaced marker token `':' ++ k`. -/
theorem C7_missing_param_leaves_token (T : Str) (P : List (Str × Str)) (k : Str)
    (hk : k ∈ requiredParams T)
    (hkeys : ∀ q ∈ P.map Prod.fst, occursIn (':' :: q) T = false) :
    occursIn (':' :: k) (buildUrl T P) = true := by
  have hre : buildUrl T P = T := foldl_buildStep_no_occ P hkeys
  rw [hre]
  exact occursIn_token_of_required hk

/-- Witness for C7: building `/post/:id` with an empty bag leaves the
token `:id` in the output. -/
theorem C7_witness :
    occursIn (':' :: chars "id") (buildUrl (chars "/post/:id") []) = true :=
  C7_missing_param_leaves_token (chars "/post/:id") [] (chars "id") (by decide)
    (fun q hq => absurd hq (by simp))

/-- C4 counterexample: with the required key present but its value
containing marker-token text, the successful `buildUrl` output still
contains the token `:id`, so the claim fails as stated. -/
theorem C4_counterexample :
    buildUrl (chars "/post/:id") [(chars "id", chars ":id")] = chars "/post/:id" ∧
    occursIn (':' :: chars "id")
      (buildUrl (chars "/post/:id") [(chars "id", chars ":id")]) = true := by
  decide

/-- C4 (amended): on success (every required parameter name of a
registered template `T` present among the bag's keys), provided every
value of the bag is free of the marker character `':'` and of `'$'`,
the returned string contains no remaining parameter marker token of
`T` — whatever the order of the keys and whatever extra keys the bag
carries. -/
theorem C4_no_marker_tokens_on_success (T : Str) (P : List (Str × Str))
    (hT : T ∈ PATHS)
    (hreq : ∀ k ∈ requiredParams T, k ∈ P.map Prod.fst)
    (hvals : ∀ kv ∈ P, ':' ∉ kv.2 ∧ '$' ∉ kv.2) :
    ∀ name ∈ requiredParams T, occursIn (':' :: name) (buildUrl T P) = false := by
  have hcf : ':' ∉ buildUrl T P := by
    rcases (show T = chars "/" ∨ T = chars "/signup" ∨ T = chars "/login" ∨
        T = chars "/post/:id" ∨ T = chars "/calendar/:year/:month" from by
        simpa [PATHS] using hT) with rfl | rfl | rfl | rfl | rfl
    · rw [show buildUrl (chars "/") P = P.foldl buildStep (chars "/") from rfl,
        foldl_buildStep_colonFree P (by decide)]
      decide
    · rw [show buildUrl (chars "/signup") P = P.foldl buildStep (chars "/signup") from rfl,
        foldl_buildStep_colonFree P (by decide)]
      decide
    · rw [show buildUrl (chars "/login") P = P.foldl buildStep (chars "/login") from rfl,
        foldl_buildStep_colonFree P (by decide)]
      decide
    · exact foldOne (by decide) P _ hvals
        ⟨chars "/post/", [], by decide, by decide, by decide⟩
        (hreq (chars "id") (by decide))
    · exact foldTwo (by decide) (by decide) (by decide) month_not_pre_year P _ hvals
        ⟨chars "/calendar/", ['/'], [], by decide, by decide, by decide, by decide⟩
        (hreq (chars "year") (by decide)) (hreq (chars "month") (by decide))
  intro name _
  exact not_occursIn_colon name hcf

/-- Witness for C4 (amended): `/post/:id` with bag `{i: X, id: 42}` —
marker-free values, extra key included — leaves no `:id` token. -/
theorem C4_witness :
    occursIn (':' :: chars "id")
      (buildUrl (chars "/post/:id") [(chars "i", chars "X"), (chars "id", chars "42")])
      = false :=
  C4_no_marker_tokens_on_success (chars "/post/:id")
    [(chars "i", chars "X"), (chars "id", chars "42")]
    (by decide) (by decide) (by decide) (chars "id") (by decide)

/-- C2 counterexample: for `/post/:id`, the bag listing the extra key
`i` before the required key `id` yields `/post/Xd`, not the `/post/42`
obtained from the bag restricted to the required key — extra keys can
corrupt the output. -/
theorem C2_counterexample :
    buildUrl (chars "/post/:id") [(chars "i", chars "X"), (chars "id", chars "42")]
      = chars "/post/Xd" ∧
    buildUrl (chars "/post/:id") [(chars "id", chars "42")] = chars "/post/42" ∧
    buildUrl (chars "/post/:id") [(chars "i", chars "X"), (chars "id", chars "42")]
      ≠ buildUrl (chars "/post/:id") [(chars "id", chars "42")] := by
  decide

/-- C2 (amended): for a registered template `T`, extra keys have no
effect provided the bag lists the required keys (in any order) before
the extra keys and every value is free of `':'` and `'$'`: `buildUrl`
on the whole bag agrees with `buildUrl` on its restriction to the
required keys. -/
theorem C2_extra_keys_ignored (T : Str) (Q E : List (Str × Str)) (hT : T ∈ PATHS)
    (hperm : (Q.map Prod.fst).Perm (requiredParams T))
    (hvals : ∀ kv ∈ Q ++ E, ':' ∉ kv.2 ∧ '$' ∉ kv.2) :
    buildUrl T (Q ++ E) = buildUrl T Q := by
  have hvalsQ : ∀ kv ∈ Q, ':' ∉ kv.2 ∧ '$' ∉ kv.2 :=
    fun kv h => hvals kv (List.mem_append_left E h)
  have hcf : ':' ∉ Q.foldl buildStep T := by
    rcases (show T = chars "/" ∨ T = chars "/signup" ∨ T = chars "/login" ∨
        T = chars "/post/:id" ∨ T = chars "/calendar/:year/:month" from by
        simpa [PATHS] using hT) with rfl | rfl | rfl | rfl | rfl
    · rw [foldl_buildStep_colonFree Q (by decide)]
      decide
    · rw [foldl_buildStep_colonFree Q (by decide)]
      decide
    · rw [foldl_buildStep_colonFree Q (by decide)]
      decide
    · exact foldOne (by decide) Q _ hvalsQ
        ⟨chars "/post/", [], by decide, by decide, by decide⟩
        (hperm.mem_iff.mpr
          (show chars "id" ∈ requiredParams (chars "/post/:id") from by decide))
    · exact foldTwo (by decide) (by decide) (by decide) month_not_pre_year Q _ hvalsQ
        ⟨chars "/calendar/", ['/'], [], by decide, by decide, by decide, by decide⟩
        (hperm.mem_iff.mpr
          (show chars "year" ∈ requiredParams (chars "/calendar/:year/:month") from by decide))
        (hperm.mem_iff.mpr
          (show chars "month" ∈ requiredParams (chars "/calendar/:year/:month") from by
            decide))
  show (Q ++ E).foldl buildStep T = Q.foldl buildStep T
  rw [List.foldl_append, foldl_buildStep_colonFree E hcf]

/-- Witness for C2 (amended): appending the extra key `i` after the
required key `id` leaves the output of `/post/:id` unchanged. -/
theorem C2_witness :
    buildUrl (chars "/post/:id")
        ([(chars "id", chars "42")] ++ [(chars "i", chars "X")])
      = buildUrl (chars "/post/:id") [(chars "id", chars "42")] :=
  C2_extra_keys_ignored (chars "/post/:id") [(chars "id", chars "42")]
    [(chars "i", chars "X")] (by decide) (by decide) (by decide)

/-- C1 counterexample: with the empty string as the value of `id`
(keys exactly the required ones), building `/post/:id` yields
`/post/`, which matches nothing in the registry — the round trip fails
as claimed. -/
theorem C1_counterexample :
    buildUrl (chars "/post/:id") [(chars "id", [])] = chars "/post/" ∧
    matchRegistry PATHS (buildUrl (chars "/post/:id") [(chars "id", [])]) = none := by
  decide

/-- C1 (amended): for every registered template `T` and bag whose keys
are exactly `T`'s required names, provided every value is a non-empty
string free of `'/'`, `':'` and `'$'`, matching the built path against
the registry under the spec's section 4.4 semantics succeeds at `T`
and recovers exactly the bag restricted to `T`'s required keys. -/
theorem C1_roundtrip (T : Str) (P : List (Str × Str)) (hT : T ∈ PATHS)
    (hperm : (P.map Prod.fst).Perm (requiredParams T))
    (hvals : ∀ kv ∈ P, kv.2 ≠ [] ∧ '/' ∉ kv.2 ∧ ':' ∉ kv.2 ∧ '$' ∉ kv.2) :
    matchRegistry PATHS (buildUrl T P) = some (T, restrictBag P (requiredParams T)) := by
  rcases (show T = chars "/" ∨ T = chars "/signup" ∨ T = chars "/login" ∨
      T = chars "/post/:id" ∨ T = chars "/calendar/:year/:month" from by
      simpa [PATHS] using hT) with rfl | rfl | rfl | rfl | rfl
  · rw [show requiredParams (chars "/") = [] from by decide] at hperm
    obtain rfl : P = [] := List.map_eq_nil_iff.mp (List.perm_nil.mp hperm)
    decide
  · rw [show requiredParams (chars "/signup") = [] from by decide] at hperm
    obtain rfl : P = [] := List.map_eq_nil_iff.mp (List.perm_nil.mp hperm)
    decide
  · rw [show requiredParams (chars "/login") = [] from by decide] at hperm
    obtain rfl : P = [] := List.map_eq_nil_iff.mp (List.perm_nil.mp hperm)
    decide
  · rw [show requiredParams (chars "/post/:id") = [chars "id"] from by decide] at hperm ⊢
    obtain ⟨v, rfl⟩ := bag_of_map_fst₁ (List.perm_singleton.mp hperm)
    obtain ⟨hvne, hvs, hvc, hvd⟩ := hvals (chars "id", v) (List.mem_cons_self _ _)
    rw [buildUrl_post v hvd, matchRegistry_post v hvs hvne]
    simp [restrictBag, List.lookup]
  · rw [show requiredParams (chars "/calendar/:year/:month")
        = [chars "year", chars "month"] from by decide] at hperm ⊢
    have e1 : (chars "year" == chars "month") = false := by decide
    have e2 : (chars "month" == chars "year") = false := by decide
    rcases perm_pair hperm with hmap | hmap
    · obtain ⟨y, m, rfl⟩ := bag_of_map_fst₂ hmap
      obtain ⟨hyne, hys, hyc, hyd⟩ := hvals (chars "year", y) (by simp)
      obtain ⟨hmne, hms, hmc, hmd⟩ := hvals (chars "month", m) (by simp)
      rw [buildUrl_cal_ym y m hyc hyd hmd, matchRegistry_cal y m hys hms hyne hmne]
      simp [restrictBag, List.lookup, e1, e2]
    · obtain ⟨m, y, rfl⟩ := bag_of_map_fst₂ hmap
      obtain ⟨hmne, hms, hmc, hmd⟩ := hvals (chars "month", m) (by simp)
      obtain ⟨hyne, hys, hyc, hyd⟩ := hvals (chars "year", y) (by simp)
      rw [buildUrl_cal_my y m hyd hmd, matchRegistry_cal y m hys hms hyne hmne]
      simp [restrictBag, List.lookup, e1, e2]

/-- Witness for C1 (amended): the concrete round trip for
`/post/:id` with `{id: 42}`. -/
theorem C1_witness :
    matchRegistry PATHS (buildUrl (chars "/post/:id") [(chars "id", chars "42")])
      = some (chars "/post/:id",
          restrictBag [(chars "id", chars "42")] (requiredParams (chars "/post/:id"))) :=
  C1_roundtrip (chars "/post/:id") [(chars "id", chars "42")]
    (by decide) (by decide) (by decide)

theorem anchored_post (P : List (Str × Str)) (v : Str)
    (hv : P.lookup (chars "id") = some v) :
    buildUrlAnchored (chars "/post/:id") P = chars "/post/" ++ v := by
  have hmap : (splitChar '/' (chars "/post/:id")).map
      (fun seg => if [':'].isPrefixOf seg then ((P.lookup (seg.drop 1)).getD seg) else seg)
      = [[], chars "post", v] := by
    rw [show splitChar '/' (chars "/post/:id") = [[], chars "post", chars ":id"] from by
      decide]
    rw [List.map_cons, List.map_cons, List.map_cons, List.map_nil]
    rw [if_neg (by decide), if_neg (by decide), if_pos (by decide)]
    rw [show (chars ":id").drop 1 = chars "id" from by decide, hv]
    rfl
  rw [buildUrlAnchored, hmap,
    show List.intercalate ['/'] [[], chars "post", v] = chars "/post/" ++ (v ++ []) from rfl,
    List.append_nil]

theorem anchored_cal (P : List (Str × Str)) (y m : Str)
    (hy : P.lookup (chars "year") = some y) (hm : P.lookup (chars "month") = some m) :
    buildUrlAnchored (chars "/calendar/:year/:month") P
      = chars "/calendar/" ++ (y ++ '/' :: m) := by
  have hmap : (splitChar '/' (chars "/calendar/:year/:month")).map
      (fun seg => if [':'].isPrefixOf seg then ((P.lookup (seg.drop 1)).getD seg) else seg)
      = [[], chars "calendar", y, m] := by
    rw [show splitChar '/' (chars "/calendar/:year/:month")
        = [[], chars "calendar", chars ":year", chars ":month"] from by decide]
    rw [List.map_cons, List.map_cons, List.map_cons, List.map_cons, List.map_nil]
    rw [if_neg (by decide), if_neg (by decide), if_pos (by decide), if_pos (by decide)]
    rw [show (chars ":year").drop 1 = chars "year" from by decide,
      show (chars ":month").drop 1 = chars "month" from by decide, hy, hm]
    rfl
  rw [buildUrlAnchored, hmap,
    show List.intercalate ['/'] [[], chars "calendar", y, m]
      = chars "/calendar/" ++ (y ++ '/' :: (m ++ [])) from rfl,
    List.append_nil]

/-- C3 counterexample: `buildUrl` substitutes by naive first-occurrence
substring replacement, not anchored token matching: for `/post/:id`
with bag `{i: X, id: 42}` the substitution for the key `i` partially
matches the token `:id`, giving `/post/Xd`, while anchored
whole-segment substitution gives `/post/42`. -/
theorem C3_counterexample :
    buildUrl (chars "/post/:id") [(chars "i", chars "X"), (chars "id", chars "42")]
      = chars "/post/Xd" ∧
    buildUrlAnchored (chars "/post/:id") [(chars "i", chars "X"), (chars "id", chars "42")]
      = chars "/post/42" ∧
    buildUrl (chars "/post/:id") [(chars "i", chars "X"), (chars "id", chars "42")]
      ≠ buildUrlAnchored (chars "/post/:id")
          [(chars "i", chars "X"), (chars "id", chars "42")] := by
  decide

/-- C3 (amended): on a registered template with keys exactly the
required names and values free of `':'` and `'$'`, the naive
substring-replacement `buildUrl` agrees with anchored whole-segment
token substitution, so no unrelated part of the template is
corrupted. -/
theorem C3_agrees_with_anchored (T : Str) (P : List (Str × Str)) (hT : T ∈ PATHS)
    (hperm : (P.map Prod.fst).Perm (requiredParams T))
    (hvals : ∀ kv ∈ P, ':' ∉ kv.2 ∧ '$' ∉ kv.2) :
    buildUrl T P = buildUrlAnchored T P := by
  rcases (show T = chars "/" ∨ T = chars "/signup" ∨ T = chars "/login" ∨
      T = chars "/post/:id" ∨ T = chars "/calendar/:year/:month" from by
      simpa [PATHS] using hT) with rfl | rfl | rfl | rfl | rfl
  · rw [show requiredParams (chars "/") = [] from by decide] at hperm
    obtain rfl : P = [] := List.map_eq_nil_iff.mp (List.perm_nil.mp hperm)
    decide
  · rw [show requiredParams (chars "/signup") = [] from by decide] at hperm
    obtain rfl : P = [] := List.map_eq_nil_iff.mp (List.perm_nil.mp hperm)
    decide
  · rw [show requiredParams (chars "/login") = [] from by decide] at hperm
    obtain rfl : P = [] := List.map_eq_nil_iff.mp (List.perm_nil.mp hperm)
    decide
  · rw [show requiredParams (chars "/post/:id") = [chars "id"] from by decide] at hperm
    obtain ⟨v, rfl⟩ := bag_of_map_fst₁ (List.perm_singleton.mp hperm)
    obtain ⟨hvc, hvd⟩ := hvals (chars "id", v) (List.mem_cons_self _ _)
    rw [buildUrl_post v hvd, anchored_post _ v (by simp [List.lookup])]
  · rw [show requiredParams (chars "/calendar/:year/:month")
        = [chars "year", chars "month"] from by decide] at hperm
    have e1 : (chars "year" == chars "month") = false := by decide
    have e2 : (chars "month" == chars "year") = false := by decide
    rcases perm_pair hperm with hmap | hmap
    · obtain ⟨y, m, rfl⟩ := bag_of_map_fst₂ hmap
      obtain ⟨hyc, hyd⟩ := hvals (chars "year", y) (by simp)
      obtain ⟨hmc, hmd⟩ := hvals (chars "month", m) (by simp)
      rw [buildUrl_cal_ym y m hyc hyd hmd,
        anchored_cal _ y m (by simp [List.lookup]) (by simp [List.lookup, e2])]
    · obtain ⟨m, y, rfl⟩ := bag_of_map_fst₂ hmap
      obtain ⟨hmc, hmd⟩ := hvals (chars "month", m) (by simp)
      obtain ⟨hyc, hyd⟩ := hvals (chars "year", y) (by simp)
      rw [buildUrl_cal_my y m hyd hmd,
        anchored_cal _ y m (by simp [List.lookup, e1]) (by simp [List.lookup])]

/-- Witness for C3 (amended): on `/post/:id` with `{id: 42}` the naive
and the anchored substitution agree. -/
theorem C3_witness :
    buildUrl (chars "/post/:id") [(chars "id", chars "42")]
      = buildUrlAnchored (chars "/post/:id") [(chars "id", chars "42")] :=
  C3_agrees_with_anchored (chars "/post/:id") [(chars "id", chars "42")]
    (by decide) (by decide) (by decide)
